import Mathlib

/-!
Verification of the rate-limiting and scheduling engine of `ai-queuer`
(`src/gemini-service.ts`, `src/usage-strategy.ts`).

Conventions of the shallow embedding:
* JavaScript numbers holding millisecond timestamps, counters and limits are
  modelled as `Int` (all arithmetic the code performs on them is integral).
* `Date.now()` and `RequestQueuer.startOfNextMonth()` are impure reads of the
  clock; every function that calls them takes the value they would return as an
  explicit parameter (`now`, `som`).
* The mutable usage store (`Map<string, UsageBucket>`) is threaded explicitly
  as an association list; in-place mutation of a bucket obtained from the map
  becomes a write-back of the updated bucket under the same key.
* `undefined`/optional values become `Option`; JavaScript falsiness of the
  optional `modelName` (where `""` is falsy) and of `fallbackDelayMs` (where
  `0` is falsy) is modelled explicitly.
* Corner cases where the JavaScript code would produce `NaN` (a window limit
  `<= 0` together with an empty timestamp window makes `usage.xs[0]` read
  `undefined`) are excluded by hypotheses of the theorems; the Lean embedding
  lets such a limit contribute nothing in that unreachable branch.
-/

namespace AIQueuer

/-- `UsageBucket` from `usage-strategy.ts`: the counter state of one
`(queue, model)` key. -/
structure UsageBucket where
  secondWindowTimestamps : List Int
  minuteWindowTimestamps : List Int
  dayWindowTimestamps : List Int
  monthTokenCount : Int
  monthTokenResetAt : Int
  monthRequestCount : Int
  monthRequestResetAt : Int
  minuteTokenCount : Int
  minuteTokenWindowStart : Int
deriving Repr, DecidableEq

/-- `LimitType` from `gemini-service.ts`. -/
inductive LimitType where
  | RPS | RPm | RPD | TPM | TPm | RPM
deriving Repr, DecidableEq

/-- `RateLimitConfig` from `gemini-service.ts`. -/
structure RateLimitConfig where
  type : LimitType
  limit : Int
deriving Repr, DecidableEq

/-- `QueuerOptions` from `gemini-service.ts`, restricted to the fields the
scheduler reads.  `defaultLimits`/`modelLimits` default to `[]` exactly as the
code defaults them with `|| []` / `|| {}`; `fallbackDelayMs = 0` models an
absent (falsy) fallback delay. -/
structure QueuerOptions where
  defaultLimits : List RateLimitConfig
  modelLimits : List (String × List RateLimitConfig)
  fallbackDelayMs : Int
deriving Repr, DecidableEq

/-- The bucket key used by `getUsageBucket`/`getBucketSim`:
`modelName || "__default__"` (an empty string is falsy in JavaScript). -/
def jsKey (modelName : Option String) : String :=
  match modelName with
  | some m => if m = "" then "__default__" else m
  | none => "__default__"

/-- Association-list lookup, the model of `Map.get`. -/
def lookupKey {α : Type} (k : String) : List (String × α) → Option α
  | [] => none
  | (k', v) :: rest => if k' = k then some v else lookupKey k rest

/-- Association-list update, the model of `Map.set` (replace if present,
append otherwise). -/
def setKey {α : Type} (k : String) (v : α) : List (String × α) → List (String × α)
  | [] => [(k, v)]
  | (k', v') :: rest => if k' = k then (k, v) :: rest else (k', v') :: setKey k v rest

/-- `makeInitial` from the `RequestQueuer` constructor: the zeroed bucket a
store miss creates.  `som` is the value `startOfNextMonth()` returns and
`createdAt` the value `Date.now()` returns at creation time. -/
def makeInitial (som createdAt : Int) : UsageBucket :=
  { secondWindowTimestamps := []
    minuteWindowTimestamps := []
    dayWindowTimestamps := []
    monthTokenCount := 0
    monthTokenResetAt := som
    monthRequestCount := 0
    monthRequestResetAt := som
    minuteTokenCount := 0
    minuteTokenWindowStart := createdAt }

/-- One sliding-window prune: the `while (xs.length && xs[0] <= cutoff) shift()`
loops of `pruneWindows` drop the maximal matching head segment. -/
def pruneList (cutoff : Int) (l : List Int) : List Int :=
  l.dropWhile (fun t => decide (t ≤ cutoff))

/-- `RequestQueuer.pruneWindows`. -/
def pruneWindows (now : Int) (u : UsageBucket) : UsageBucket :=
  { u with
    secondWindowTimestamps := pruneList (now - 1000) u.secondWindowTimestamps
    minuteWindowTimestamps := pruneList (now - 60000) u.minuteWindowTimestamps
    dayWindowTimestamps := pruneList (now - 86400000) u.dayWindowTimestamps }

/-- `RequestQueuer.maybeResetMonthlyTokens`; `som` is the fresh
`startOfNextMonth()` value assigned on reset. -/
def maybeResetMonthlyTokens (som now : Int) (u : UsageBucket) : UsageBucket :=
  if u.monthTokenResetAt ≤ now then
    { u with monthTokenCount := 0, monthTokenResetAt := som }
  else u

/-- `RequestQueuer.maybeResetMonthlyRequests`. -/
def maybeResetMonthlyRequests (som now : Int) (u : UsageBucket) : UsageBucket :=
  if u.monthRequestResetAt ≤ now then
    { u with monthRequestCount := 0, monthRequestResetAt := som }
  else u

/-- `RequestQueuer.maybeResetMinuteTokens`. -/
def maybeResetMinuteTokens (now : Int) (u : UsageBucket) : UsageBucket :=
  if 60000 ≤ now - u.minuteTokenWindowStart then
    { u with minuteTokenCount := 0, minuteTokenWindowStart := now }
  else u

/-- The four maintenance operations in the order `computeWaitMs` applies them
(lines 314–317 of `gemini-service.ts`). -/
def maintainBucket (som now : Int) (u : UsageBucket) : UsageBucket :=
  pruneWindows now (maybeResetMinuteTokens now
    (maybeResetMonthlyRequests som now (maybeResetMonthlyTokens som now u)))

/-- The three maintenance operations `computeWaitSim` applies (lines 467–469):
the minute-token reset is absent there, although `maybeResetMinuteTokensSim`
is defined a few lines above. -/
def maintainBucketSim (som now : Int) (u : UsageBucket) : UsageBucket :=
  pruneWindows now (maybeResetMonthlyRequests som now (maybeResetMonthlyTokens som now u))

/-- One step of the `for (const l of active)` fold in `computeWaitMs` (and the
identical fold in `computeWaitSim`): `w` is the running `waitMs` accumulator.
In the window branches, the empty-list case is the corner where the JavaScript
code would read `xs[0]` as `undefined` and poison the result with `NaN`; it is
only reachable when `l.limit ≤ 0` and is excluded by the theorems below. -/
def waitStep (now tokensNeeded : Int) (u : UsageBucket) (w : Int) (l : RateLimitConfig) : Int :=
  match l.type with
  | .RPS =>
    if l.limit ≤ (u.secondWindowTimestamps.length : Int) then
      match u.secondWindowTimestamps with
      | [] => w
      | earliest :: _ => max w (1000 - (now - earliest))
    else w
  | .RPm =>
    if l.limit ≤ (u.minuteWindowTimestamps.length : Int) then
      match u.minuteWindowTimestamps with
      | [] => w
      | earliest :: _ => max w (60000 - (now - earliest))
    else w
  | .RPD =>
    if l.limit ≤ (u.dayWindowTimestamps.length : Int) then
      match u.dayWindowTimestamps with
      | [] => w
      | earliest :: _ => max w (86400000 - (now - earliest))
    else w
  | .TPM =>
    if l.limit < u.monthTokenCount + max 0 tokensNeeded then
      max w (u.monthTokenResetAt - now)
    else w
  | .RPM =>
    if l.limit < u.monthRequestCount + 1 then
      max w (u.monthRequestResetAt - now)
    else w
  | .TPm =>
    if 60000 ≤ now - u.minuteTokenWindowStart then w
    else if l.limit < u.minuteTokenCount + max 0 tokensNeeded then
      max w (u.minuteTokenWindowStart + 60000 - now)
    else w

/-- `RequestQueuer.getActiveLimits`. -/
def getActiveLimits (opts : QueuerOptions) (modelName : Option String) :
    Option (List RateLimitConfig) :=
  let dl := opts.defaultLimits
  let fromDefaults : Option (List RateLimitConfig) :=
    if dl.isEmpty then none else some dl
  match modelName with
  | none => fromDefaults
  | some m =>
    if m = "" then fromDefaults
    else
      match lookupKey m opts.modelLimits with
      | none => fromDefaults
      | some msl =>
        if msl.isEmpty then fromDefaults
        else
          some ((dl.map fun d =>
              match msl.find? (fun ml => ml.type = d.type) with
              | some override => override
              | none => d) ++
            msl.filter (fun ml => ¬ dl.any (fun d => d.type = ml.type)))

/-- `!activeLimits || activeLimits.length === 0`. -/
def limitsEmpty (o : Option (List RateLimitConfig)) : Bool :=
  match o with
  | none => true
  | some l => l.isEmpty

/-- The mutable usage map (per key, a `UsageBucket`). -/
abbrev Store := List (String × UsageBucket)

/-- `RAMUsageStrategy.getBucket` as used through `getUsageBucket`: return the
bucket for the key, creating (and storing) a fresh one on a miss.
`createdAt` is the `Date.now()` value at creation. -/
def getBucketIn (som createdAt : Int) (store : Store) (modelName : Option String) :
    UsageBucket × Store :=
  let k := jsKey modelName
  match lookupKey k store with
  | some u => (u, store)
  | none => (makeInitial som createdAt, setKey k (makeInitial som createdAt) store)

/-- `RequestQueuer.computeWaitMs` (lines 305–360).  The bucket mutations the
check performs (maintenance) are written back into the store, modelling the
in-place mutation of the shared bucket object. -/
def computeWaitMs (opts : QueuerOptions) (som now : Int) (store : Store)
    (modelName : Option String) (tokensNeeded : Int) : Int × Store :=
  match getActiveLimits opts modelName with
  | none => (0, store)
  | some [] => (0, store)
  | some active =>
    let p := getBucketIn som now store modelName
    let u := maintainBucket som now p.1
    (max 0 (active.foldl (waitStep now tokensNeeded u) 0), setKey (jsKey modelName) u p.2)

/-- The `computeWaitSim` closure inside `estimateWaitMs` (lines 458–512).  It
differs from `computeWaitMs` in two ways that are visible in the source: a
fresh simulated bucket is created with `minuteTokenWindowStart = now` (the
outer `now`, not the simulation cursor `t`), and the minute-token reset is not
applied. -/
def computeWaitSim (opts : QueuerOptions) (som nowOuter t : Int) (store : Store)
    (modelName : Option String) (tokens : Int) : Int × Store :=
  match getActiveLimits opts modelName with
  | none => (0, store)
  | some [] => (0, store)
  | some limits =>
    let p := getBucketIn som nowOuter store modelName
    let u := maintainBucketSim som t p.1
    (max 0 (limits.foldl (waitStep t tokens u) 0), setKey (jsKey modelName) u p.2)

/-! ## Spec-side admission check (for the refinement claim C1)

`specCandidate`/`specWaitMs` transcribe the table of §4.2 of the spec: each
limit either does not apply or contributes one candidate wait; the check
returns the maximum of the candidates clamped to `≥ 0`, and `0` when no limit
triggers. -/

/-- The candidate wait of one limit according to the spec's table. -/
def specCandidate (now tokensNeeded : Int) (u : UsageBucket) (l : RateLimitConfig) :
    Option Int :=
  match l.type with
  | .RPS =>
    if l.limit ≤ (u.secondWindowTimestamps.length : Int) then
      u.secondWindowTimestamps.head?.map (fun e => 1000 - (now - e))
    else none
  | .RPm =>
    if l.limit ≤ (u.minuteWindowTimestamps.length : Int) then
      u.minuteWindowTimestamps.head?.map (fun e => 60000 - (now - e))
    else none
  | .RPD =>
    if l.limit ≤ (u.dayWindowTimestamps.length : Int) then
      u.dayWindowTimestamps.head?.map (fun e => 86400000 - (now - e))
    else none
  | .TPM =>
    if l.limit < u.monthTokenCount + max 0 tokensNeeded then
      some (u.monthTokenResetAt - now)
    else none
  | .RPM =>
    if l.limit < u.monthRequestCount + 1 then
      some (u.monthRequestResetAt - now)
    else none
  | .TPm =>
    if 60000 ≤ now - u.minuteTokenWindowStart then none
    else if l.limit < u.minuteTokenCount + max 0 tokensNeeded then
      some (u.minuteTokenWindowStart + 60000 - now)
    else none

/-- The spec's admission check: maintenance first, then the maximum of the
candidate waits of the active limits, clamped to `≥ 0`; `0` when none apply. -/
def specWaitMs (som now : Int) (limits : List RateLimitConfig) (u : UsageBucket)
    (tokensNeeded : Int) : Int :=
  let v := maintainBucket som now u
  match limits.filterMap (specCandidate now tokensNeeded v) with
  | [] => 0
  | c :: cs => max 0 (cs.foldl max c)

/-- The limit types whose candidate reads the head of a timestamp window
(where the JavaScript code would produce `NaN` for a limit `≤ 0` over an
empty window). -/
def isWindowLimit : LimitType → Bool
  | .RPS => true
  | .RPm => true
  | .RPD => true
  | _ => false

theorem waitStep_eq_specCandidate (now tokensNeeded : Int) (u : UsageBucket)
    (w : Int) (l : RateLimitConfig) :
    waitStep now tokensNeeded u w l =
      match specCandidate now tokensNeeded u l with
      | none => w
      | some c => max w c := by
  cases l with
  | mk ty lim =>
    cases ty <;> simp only [waitStep, specCandidate] <;> split <;>
      first
        | rfl
        | (cases h : u.secondWindowTimestamps <;> simp [h])
        | (cases h : u.minuteWindowTimestamps <;> simp [h])
        | (cases h : u.dayWindowTimestamps <;> simp [h])
        | (split <;> rfl)

theorem foldl_waitStep_eq (now tokensNeeded : Int) (u : UsageBucket)
    (ls : List RateLimitConfig) :
    ∀ w : Int, ls.foldl (waitStep now tokensNeeded u) w =
      (ls.filterMap (specCandidate now tokensNeeded u)).foldl max w := by
  induction ls with
  | nil => intro w; rfl
  | cons l rest ih =>
    intro w
    rw [List.foldl_cons, waitStep_eq_specCandidate, List.filterMap_cons]
    cases h : specCandidate now tokensNeeded u l with
    | none => simpa using ih w
    | some c => simpa using ih (max w c)

theorem foldl_max_start (cs : List Int) : ∀ a b : Int,
    cs.foldl max (max a b) = max a (cs.foldl max b) := by
  induction cs with
  | nil => intro a b; rfl
  | cons c rest ih =>
    intro a b
    rw [List.foldl_cons, List.foldl_cons, max_assoc, ih]

/-- C1. The admission check `computeWaitMs` returns exactly the spec's table
value: the maximum over the active limits of the candidate waits (RPS/RPm/RPD
over the pruned sliding windows, TPM/RPM against the monthly counters, TPm
against the live minute-token window), clamped to `≥ 0`, and `0` when no limit
triggers.  The hypothesis `hwin` excludes the degenerate window limits `≤ 0`
for which the JavaScript code would read `undefined` and produce `NaN`. -/
theorem computeWaitMs_matches_spec (opts : QueuerOptions) (som now tokensNeeded : Int)
    (store : Store) (modelName : Option String) (u : UsageBucket)
    (active : List RateLimitConfig)
    (hact : getActiveLimits opts modelName = some active)
    (hne : active ≠ [])
    (hbucket : lookupKey (jsKey modelName) store = some u)
    (hwin : ∀ l ∈ active, isWindowLimit l.type = true → 1 ≤ l.limit) :
    (computeWaitMs opts som now store modelName tokensNeeded).1 =
      specWaitMs som now active u tokensNeeded := by
  cases active with
  | nil => exact absurd rfl hne
  | cons a as =>
    have hbu : getBucketIn som now store modelName = (u, store) := by
      simp [getBucketIn, hbucket]
    simp only [computeWaitMs, hact, hbu, specWaitMs]
    rw [foldl_waitStep_eq]
    cases h : (a :: as).filterMap
        (specCandidate now tokensNeeded (maintainBucket som now u)) with
    | nil => simp [h]
    | cons c cs =>
      simp only [h, List.foldl_cons]
      rw [show ((0 : Int) ⊔ c) = max 0 c from rfl, foldl_max_start cs 0 c,
        ← max_assoc, max_self]

/-- Witness for C1 at a concrete input (an RPS limit of 1 with one
timestamp in the second window). -/
theorem computeWaitMs_matches_spec_witness :
    (computeWaitMs ⟨[⟨.RPS, 1⟩], [], 0⟩ 777 100 [("m", ⟨[50], [], [], 0, 99999, 0, 99999, 0, 0⟩)]
        (some "m") 5).1 =
      specWaitMs 777 100 [⟨.RPS, 1⟩] ⟨[50], [], [], 0, 99999, 0, 99999, 0, 0⟩ 5 :=
  computeWaitMs_matches_spec _ _ _ _ _ _ _ _ (by decide) (by decide) (by decide) (by decide)

/-! ## The dispatch-loop scan (`processQueue`, lines 224–246) -/

/-- The scheduler-relevant data of a `QueueItem`: the opaque id, the optional
token estimate and the optional model name. -/
structure QueueItem where
  id : Nat
  tokens : Option Int
  modelName : Option String
deriving Repr, DecidableEq

/-- `qi.tokens || 0`. -/
def itemTokens (it : QueueItem) : Int := it.tokens.getD 0

/-- One pass of the runnable scan: returns the mutated store, the index of the
first item whose wait is `≤ 0` (the code breaks there), and the minimum wait
observed over the scanned blocked items. -/
def scanQueue (opts : QueuerOptions) (som now : Int) :
    Store → List QueueItem → Store × Option Nat × Option Int
  | store, [] => (store, none, none)
  | store, item :: rest =>
    let p := computeWaitMs opts som now store item.modelName (itemTokens item)
    if p.1 ≤ 0 then (p.2, some 0, none)
    else
      let q := scanQueue opts som now p.2 rest
      (q.1, q.2.1.map (· + 1),
        some (match q.2.2 with | none => p.1 | some mw => min p.1 mw))

/-- The wait of one item computed against a fixed store (no threading). -/
def pureWait (opts : QueuerOptions) (som now : Int) (store : Store) (it : QueueItem) : Int :=
  (computeWaitMs opts som now store it.modelName (itemTokens it)).1

/-- The idle sleep `Math.max(1, Math.min(minWait, 5000))`; an infinite
`minWait` (no finite wait observed) gives 5000. -/
def sleepMs (mw : Option Int) : Int :=
  match mw with
  | none => 5000
  | some w => max 1 (min w 5000)

/-- The minimum of a list of waits (`none` for the empty list, the model of
the `Infinity` starting value). -/
def minOfList : List Int → Option Int
  | [] => none
  | w :: rest => some (match minOfList rest with | none => w | some m => min w m)

theorem lookupKey_setKey_self {α : Type} (k : String) (v : α) (s : List (String × α)) :
    lookupKey k (setKey k v s) = some v := by
  induction s with
  | nil => simp [lookupKey, setKey]
  | cons hd t ih =>
    obtain ⟨a, b⟩ := hd
    by_cases hk : a = k
    · simp [lookupKey, setKey, hk]
    · simp [lookupKey, setKey, hk, ih]

theorem lookupKey_setKey_ne {α : Type} (k k' : String) (v : α) (s : List (String × α))
    (h : k' ≠ k) : lookupKey k' (setKey k v s) = lookupKey k' s := by
  have hk' : k ≠ k' := Ne.symm h
  induction s with
  | nil => simp [lookupKey, setKey, hk']
  | cons hd t ih =>
    obtain ⟨a, b⟩ := hd
    by_cases ha : a = k
    · subst ha
      simp [lookupKey, setKey, hk']
    · by_cases ha' : a = k'
      · simp [lookupKey, setKey, ha, ha', h]
      · simp [lookupKey, setKey, ha, ha', ih]

theorem dropWhile_idem {α : Type} (p : α → Bool) (l : List α) :
    (l.dropWhile p).dropWhile p = l.dropWhile p := by
  induction l with
  | nil => rfl
  | cons a t ih =>
    by_cases h : p a = true
    · simp [List.dropWhile_cons, h, ih]
    · simp [List.dropWhile_cons, h]

theorem pruneList_idem (c : Int) (l : List Int) :
    pruneList c (pruneList c l) = pruneList c l :=
  dropWhile_idem _ l

/-- Normal form of the four maintenance operations on an explicit bucket. -/
theorem maintainBucket_mk (som now : Int) (sec mnt day : List Int)
    (mtc mtr mrc mrr mintc mintw : Int) :
    maintainBucket som now ⟨sec, mnt, day, mtc, mtr, mrc, mrr, mintc, mintw⟩ =
      ⟨pruneList (now - 1000) sec, pruneList (now - 60000) mnt,
        pruneList (now - 86400000) day,
        if mtr ≤ now then 0 else mtc, if mtr ≤ now then som else mtr,
        if mrr ≤ now then 0 else mrc, if mrr ≤ now then som else mrr,
        if 60000 ≤ now - mintw then 0 else mintc,
        if 60000 ≤ now - mintw then now else mintw⟩ := by
  simp only [maintainBucket, maybeResetMonthlyTokens, maybeResetMonthlyRequests,
    maybeResetMinuteTokens, pruneWindows]
  split_ifs <;> rfl

/-- Maintenance is idempotent: applying the four operations twice at the same
instant is the same as applying them once. -/
theorem maintainBucket_idem (som now : Int) (u : UsageBucket) :
    maintainBucket som now (maintainBucket som now u) = maintainBucket som now u := by
  cases u with
  | mk sec mnt day mtc mtr mrc mrr mintc mintw =>
    rw [maintainBucket_mk, maintainBucket_mk, UsageBucket.mk.injEq]
    refine ⟨pruneList_idem _ _, pruneList_idem _ _, pruneList_idem _ _,
      ?_, ?_, ?_, ?_, ?_, ?_⟩ <;> split_ifs <;> first | rfl | omega

/-- A freshly created bucket is a fixed point of maintenance at its creation
instant. -/
theorem maintain_makeInitial (som now : Int) :
    maintainBucket som now (makeInitial som now) = makeInitial som now := by
  rw [show makeInitial som now = (⟨[], [], [], 0, som, 0, som, 0, now⟩ : UsageBucket) from rfl,
    maintainBucket_mk]
  simp [pruneList, ite_self]

theorem getBucketIn_key_congr (som now : Int) (s : Store) (m m' : Option String)
    (hkey : jsKey m' = jsKey m) :
    getBucketIn som now s m' = getBucketIn som now s m := by
  simp only [getBucketIn, hkey]

theorem getBucketIn_fst_congr (som now : Int) (s s' : Store) (m : Option String)
    (h : lookupKey (jsKey m) s' = lookupKey (jsKey m) s) :
    (getBucketIn som now s' m).1 = (getBucketIn som now s m).1 := by
  simp only [getBucketIn, h]
  cases lookupKey (jsKey m) s <;> rfl

/-- What a (non-trivial) admission check does to the store: the checked key now
holds its maintained bucket, every other key is untouched. -/
theorem computeWaitMs_snd_lookup (opts : QueuerOptions) (som now tk : Int) (store : Store)
    (m : Option String) (a : RateLimitConfig) (as : List RateLimitConfig)
    (hact : getActiveLimits opts m = some (a :: as)) (k2 : String) :
    lookupKey k2 (computeWaitMs opts som now store m tk).2 =
      if k2 = jsKey m then
        some (maintainBucket som now (getBucketIn som now store m).1)
      else lookupKey k2 store := by
  simp only [computeWaitMs, hact]
  by_cases hk : k2 = jsKey m
  · subst hk
    simp [lookupKey_setKey_self]
  · rw [if_neg hk, lookupKey_setKey_ne _ _ _ _ hk]
    simp only [getBucketIn]
    cases h : lookupKey (jsKey m) store with
    | some u => rfl
    | none => exact lookupKey_setKey_ne _ _ _ _ hk

/-- The wait value depends on the store only through the maintained bucket of
the item's key. -/
theorem computeWaitMs_fst_eq_of_bucket (opts : QueuerOptions) (som now tk : Int)
    (s s' : Store) (m : Option String)
    (h : maintainBucket som now (getBucketIn som now s' m).1 =
      maintainBucket som now (getBucketIn som now s m).1) :
    (computeWaitMs opts som now s' m tk).1 = (computeWaitMs opts som now s m tk).1 := by
  cases hact : getActiveLimits opts m with
  | none => simp [computeWaitMs, hact]
  | some ls =>
    cases ls with
    | nil => simp [computeWaitMs, hact]
    | cons b bs => simp [computeWaitMs, hact, h]

/-- Stability: a later admission check computes the same wait on the store
mutated by an earlier check as it would have on the original store (the
maintenance an earlier check wrote back is idempotent). -/
theorem computeWaitMs_fst_stable (opts : QueuerOptions) (som now tk tk2 : Int)
    (store : Store) (m m2 : Option String) :
    (computeWaitMs opts som now (computeWaitMs opts som now store m tk).2 m2 tk2).1 =
      (computeWaitMs opts som now store m2 tk2).1 := by
  cases hact : getActiveLimits opts m with
  | none => simp [computeWaitMs, hact]
  | some ls =>
    cases ls with
    | nil => simp [computeWaitMs, hact]
    | cons a as =>
      apply computeWaitMs_fst_eq_of_bucket
      by_cases hk : jsKey m2 = jsKey m
      · have h1 : lookupKey (jsKey m2) (computeWaitMs opts som now store m tk).2 =
            some (maintainBucket som now (getBucketIn som now store m).1) := by
          rw [computeWaitMs_snd_lookup opts som now tk store m a as hact, if_pos hk]
        have h2 : (getBucketIn som now (computeWaitMs opts som now store m tk).2 m2).1 =
            maintainBucket som now (getBucketIn som now store m).1 := by
          simp only [getBucketIn, h1]
        rw [h2, maintainBucket_idem,
          getBucketIn_key_congr som now store m m2 hk]
      · have h1 : lookupKey (jsKey m2) (computeWaitMs opts som now store m tk).2 =
            lookupKey (jsKey m2) store := by
          rw [computeWaitMs_snd_lookup opts som now tk store m a as hact, if_neg hk]
        rw [getBucketIn_fst_congr som now store _ m2 h1]

theorem pureWait_stable (opts : QueuerOptions) (som now tk : Int) (store : Store)
    (m : Option String) (it : QueueItem) :
    pureWait opts som now (computeWaitMs opts som now store m tk).2 it =
      pureWait opts som now store it :=
  computeWaitMs_fst_stable opts som now tk (itemTokens it) store m it.modelName

theorem pureWait_nonneg (opts : QueuerOptions) (som now : Int) (store : Store)
    (it : QueueItem) : 0 ≤ pureWait opts som now store it := by
  unfold pureWait computeWaitMs
  cases getActiveLimits opts it.modelName with
  | none => simp
  | some ls => cases ls with
    | nil => simp
    | cons a as => simp [le_max_left]

/-- Every window-type limit (RPS/RPm/RPD) configured anywhere in the options
is `≥ 1`; this excludes the corner in which the JavaScript code reads
`undefined` from an empty window and produces `NaN`. -/
def windowLimitsOk (opts : QueuerOptions) : Bool :=
  (opts.defaultLimits ++ (opts.modelLimits.map Prod.snd).flatten).all
    (fun l => !isWindowLimit l.type || decide (1 ≤ l.limit))

theorem scanQueue_spec (opts : QueuerOptions) (som now : Int) :
    ∀ (q : List QueueItem) (store : Store),
      (scanQueue opts som now store q).2.1 =
          q.findIdx? (fun it => decide (pureWait opts som now store it ≤ 0)) ∧
        ((scanQueue opts som now store q).2.1 = none →
          (scanQueue opts som now store q).2.2 =
            minOfList (q.map (pureWait opts som now store))) := by
  intro q
  induction q with
  | nil => intro store; exact ⟨rfl, fun _ => rfl⟩
  | cons item rest ih =>
    intro store
    have hw : (computeWaitMs opts som now store item.modelName (itemTokens item)).1 =
        pureWait opts som now store item := rfl
    have hfun : (fun it => decide (pureWait opts som now
          (computeWaitMs opts som now store item.modelName (itemTokens item)).2 it ≤ 0)) =
        (fun it => decide (pureWait opts som now store it ≤ 0)) := by
      funext it
      rw [pureWait_stable]
    have hmap : rest.map (pureWait opts som now
          (computeWaitMs opts som now store item.modelName (itemTokens item)).2) =
        rest.map (pureWait opts som now store) := by
      apply List.map_congr_left
      intro it _
      rw [pureWait_stable]
    by_cases hle : (computeWaitMs opts som now store item.modelName (itemTokens item)).1 ≤ 0
    · constructor
      · simp only [scanQueue, if_pos hle, List.findIdx?_cons]
        rw [hw] at hle
        simp [hle]
      · intro hnone
        simp only [scanQueue, if_pos hle] at hnone
        exact absurd hnone (by simp)
    · obtain ⟨ih1, ih2⟩ := ih (computeWaitMs opts som now store item.modelName (itemTokens item)).2
      constructor
      · simp only [scanQueue, if_neg hle, List.findIdx?_cons]
        rw [hw] at hle
        rw [if_neg (by simpa using hle)]
        rw [ih1, hfun, List.findIdx?_succ]
      · intro hnone
        simp only [scanQueue, if_neg hle] at hnone ⊢
        rw [Option.map_eq_none'] at hnone
        rw [ih2 hnone, hmap, List.map_cons, minOfList, hw]

/-- C2.  One pass of the dispatch-loop scan (`processQueue`) selects exactly
the item with the smallest FIFO index whose computed wait is 0, each item
checked under its own model's active limits; when no item is runnable the
minimum wait it observed is the minimum of the items' waits, and the loop then
sleeps `sleepMs` of it, i.e. `clamp(min wait, 1, 5000)`.  In particular a
later-arrived item whose model is free (wait 0) is selected ahead of an
earlier item whose model is at its limit (wait > 0).  `hwin` excludes window
limits `≤ 0`, for which the JavaScript scan would produce `NaN` waits. -/
theorem processQueue_scan_spec (opts : QueuerOptions) (som now : Int) (store : Store)
    (q : List QueueItem) (hwin : windowLimitsOk opts = true) :
    (scanQueue opts som now store q).2.1 =
        q.findIdx? (fun it => decide (pureWait opts som now store it = 0)) ∧
      ((scanQueue opts som now store q).2.1 = none →
        sleepMs (scanQueue opts som now store q).2.2 =
          sleepMs (minOfList (q.map (pureWait opts som now store)))) := by
  have hpred : (fun it => decide (pureWait opts som now store it = 0)) =
      (fun it => decide (pureWait opts som now store it ≤ 0)) := by
    funext it
    have := pureWait_nonneg opts som now store it
    by_cases h : pureWait opts som now store it = 0
    · simp [h]
    · simp [h, show ¬ pureWait opts som now store it ≤ 0 by omega]
  obtain ⟨h1, h2⟩ := scanQueue_spec opts som now q store
  exact ⟨by rw [hpred, h1], fun hnone => by rw [h2 hnone]⟩

/-- Witness for C2: a queue whose head (model "slow") is at its RPS limit
while the later item (model "fast") is free; the scan selects index 1. -/
theorem processQueue_scan_spec_witness :
    (scanQueue ⟨[], [("slow", [⟨.RPS, 1⟩]), ("fast", [⟨.RPS, 100⟩])], 0⟩ 999999 100
          [("slow", ⟨[50], [50], [50], 0, 999999, 0, 999999, 0, 100⟩)]
          [⟨1, none, some "slow"⟩, ⟨2, none, some "fast"⟩]).2.1 =
        [⟨1, none, some "slow"⟩, ⟨2, none, some "fast"⟩].findIdx?
          (fun it => decide (pureWait ⟨[], [("slow", [⟨.RPS, 1⟩]), ("fast", [⟨.RPS, 100⟩])], 0⟩
            999999 100
            [("slow", ⟨[50], [50], [50], 0, 999999, 0, 999999, 0, 100⟩)] it = 0)) ∧
    (scanQueue ⟨[], [("slow", [⟨.RPS, 1⟩]), ("fast", [⟨.RPS, 100⟩])], 0⟩ 999999 100
        [("slow", ⟨[50], [50], [50], 0, 999999, 0, 999999, 0, 100⟩)]
        [⟨1, none, some "slow"⟩, ⟨2, none, some "fast"⟩]).2.1 = some 1 :=
  ⟨(processQueue_scan_spec ⟨[], [("slow", [⟨.RPS, 1⟩]), ("fast", [⟨.RPS, 100⟩])], 0⟩ 999999 100
      [("slow", ⟨[50], [50], [50], 0, 999999, 0, 999999, 0, 100⟩)]
      [⟨1, none, some "slow"⟩, ⟨2, none, some "fast"⟩] (by decide)).1, by decide⟩

theorem findIdxq_spec {α : Type} (p : α → Bool) :
    ∀ (l : List α) (j : Nat), l.findIdx? p = some j →
      ∃ hj : j < l.length, p (l.get ⟨j, hj⟩) = true ∧
        ∀ i (hi : i < j), p (l.get ⟨i, Nat.lt_trans hi hj⟩) = false := by
  intro l
  induction l with
  | nil => intro j h; simp at h
  | cons a t ih =>
    intro j h
    have hcons : (a :: t).findIdx? p =
        if p a then some 0 else (t.findIdx? p).map (· + 1) := by
      rw [List.findIdx?_cons]
      split <;> simp [List.findIdx?_succ]
    rw [hcons] at h
    by_cases hp : p a = true
    · rw [if_pos hp] at h
      cases h
      exact ⟨Nat.succ_pos _, hp, fun i hi => absurd hi (Nat.not_lt_zero i)⟩
    · rw [if_neg hp] at h
      cases hfi : t.findIdx? p with
      | none => rw [hfi] at h; simp at h
      | some v =>
        rw [hfi, Option.map_some'] at h
        cases h
        obtain ⟨hv, hpv, hlt⟩ := ih v hfi
        refine ⟨Nat.succ_lt_succ hv, hpv, ?_⟩
        intro i hi
        cases i with
        | zero => simpa using hp
        | succ i' => exact hlt i' (Nat.lt_of_succ_lt_succ hi)

/-- The computed wait of an item depends only on its model name and token
estimate. -/
theorem pureWait_congr_item (opts : QueuerOptions) (som now : Int) (store : Store)
    (it it' : QueueItem) (hm : it.modelName = it'.modelName)
    (ht : itemTokens it = itemTokens it') :
    pureWait opts som now store it = pureWait opts som now store it' := by
  unfold pureWait
  rw [hm, ht]

/-- C3 (counterexample to the claim as stated).  Under a TPM limit of 50, a
queue holding two items of the same model "m" — the earlier with 100 estimated
tokens, the later with 0 — selects index 1: the later-enqueued item of the
model is dispatched while the earlier one is still pending (its wait is 1000,
the time to the monthly reset). -/
theorem fifo_per_model_counterexample :
    (scanQueue ⟨[⟨.TPM, 50⟩], [], 0⟩ 5000 1000
        [("m", ⟨[], [], [], 0, 2000, 0, 2000, 0, 1000⟩)]
        [⟨1, some 100, some "m"⟩, ⟨2, some 0, some "m"⟩]).2.1 = some 1 ∧
      pureWait ⟨[⟨.TPM, 50⟩], [], 0⟩ 5000 1000
        [("m", ⟨[], [], [], 0, 2000, 0, 2000, 0, 1000⟩)] ⟨1, some 100, some "m"⟩ = 1000 := by
  exact ⟨by decide, by decide⟩

/-- C3 (amended).  Within one Queuer, the dispatch loop never selects a
later-enqueued item of a model ahead of an earlier-enqueued, still-pending
item of the same model *carrying the same token estimate*: the scan picks the
least index whose wait is 0, and two same-model items with equal token
estimates always have equal waits.  (With unequal token estimates a
later-enqueued item can overtake, as the counterexample shows.) -/
theorem fifo_per_model_equal_tokens (opts : QueuerOptions) (som now : Int) (store : Store)
    (q : List QueueItem) (i j : Nat) (hij : i < j) (hj : j < q.length)
    (hmodel : (q.get ⟨i, Nat.lt_trans hij hj⟩).modelName = (q.get ⟨j, hj⟩).modelName)
    (htok : itemTokens (q.get ⟨i, Nat.lt_trans hij hj⟩) = itemTokens (q.get ⟨j, hj⟩)) :
    (scanQueue opts som now store q).2.1 ≠ some j := by
  intro hsel
  have h1 := (scanQueue_spec opts som now q store).1
  rw [hsel] at h1
  obtain ⟨hj', hpj, hlt⟩ := findIdxq_spec _ q j h1.symm
  have hji := hlt i hij
  have : pureWait opts som now store (q.get ⟨i, Nat.lt_trans hij hj'⟩) =
      pureWait opts som now store (q.get ⟨j, hj'⟩) := by
    apply pureWait_congr_item
    · exact hmodel
    · exact htok
  have h2 : pureWait opts som now store (q.get ⟨i, Nat.lt_trans hij hj'⟩) ≤ 0 := by
    rw [this]
    exact of_decide_eq_true hpj
  rw [decide_eq_false_iff_not] at hji
  exact hji h2

/-- Witness for the amended C3: two same-model, same-token items; the scan
does not select the later one. -/
theorem fifo_per_model_equal_tokens_witness :
    (scanQueue ⟨[⟨.RPS, 1⟩], [], 0⟩ 5000 1000 []
        [⟨1, some 5, some "m"⟩, ⟨2, some 5, some "m"⟩]).2.1 ≠ some 1 :=
  fifo_per_model_equal_tokens ⟨[⟨.RPS, 1⟩], [], 0⟩ 5000 1000 []
    [⟨1, some 5, some "m"⟩, ⟨2, some 5, some "m"⟩] 0 1
    (by decide) (by decide) (by decide) (by decide)

/-! ## Dispatch outcome handling (`processQueue`, lines 251–278) -/

/-- The outcome of awaiting the caller-provided `execute` closure. -/
inductive ExecOutcome (ε τ : Type) where
  | ok : τ → ExecOutcome ε τ
  | thrown : ε → ExecOutcome ε τ
deriving Repr, DecidableEq

/-- The terminal state of the item's future. -/
inductive ItemFate (ε τ : Type) where
  | resolved : τ → ItemFate ε τ
  | rejected : ε → ItemFate ε τ
deriving Repr, DecidableEq

/-- The bucket transformation of `recordUsage` (lines 621–638): append `now`
to the three windows, add tokens to the monthly count when positive, bump the
monthly request count, roll the minute-token window when stale, add tokens to
it when positive, prune. -/
def recordBucket (now tokens : Int) (u : UsageBucket) : UsageBucket :=
  let u1 := { u with
    secondWindowTimestamps := u.secondWindowTimestamps ++ [now]
    minuteWindowTimestamps := u.minuteWindowTimestamps ++ [now]
    dayWindowTimestamps := u.dayWindowTimestamps ++ [now] }
  let u2 := if 0 < tokens then { u1 with monthTokenCount := u1.monthTokenCount + tokens } else u1
  let u3 := { u2 with monthRequestCount := u2.monthRequestCount + 1 }
  let u4 := if 60000 ≤ now - u3.minuteTokenWindowStart then
      { u3 with minuteTokenWindowStart := now, minuteTokenCount := 0 } else u3
  let u5 := if 0 < tokens then { u4 with minuteTokenCount := u4.minuteTokenCount + tokens } else u4
  pruneWindows now u5

/-- `RequestQueuer.recordUsage` on the RAM store: fetch (or create) the bucket
and mutate it in place; the trailing `persist` is a no-op for the RAM
strategy. -/
def recordUsage (som now tokens : Int) (modelName : Option String) (store : Store) : Store :=
  let p := getBucketIn som now store modelName
  setKey (jsKey modelName) (recordBucket now tokens p.1) p.2

/-- The body of the dispatch loop after an item has been removed from the
queue: await `execute`; on success resolve the future and record usage at the
completion time, on a thrown error reject the future with that error (the
`catch` block) — no usage is recorded and the loop proceeds. -/
def dispatchStep {ε τ : Type} (som endTime : Int) (store : Store) (it : QueueItem)
    (outcome : ExecOutcome ε τ) : Store × ItemFate ε τ :=
  match outcome with
  | .ok v => (recordUsage som endTime (itemTokens it) it.modelName store, .resolved v)
  | .thrown e => (store, .rejected e)

/-- C4.  If `execute` throws, the item's future is rejected with the original
error, `recordUsage` is not invoked, and the usage store — hence every
bucket — is identical to its state immediately before the `execute` call; the
dispatch loop merely continues.  (On success the store does change, via
`recordUsage`.) -/
theorem dispatch_failure_no_usage {ε τ : Type} (som endTime : Int) (store : Store)
    (it : QueueItem) (e : ε) :
    (dispatchStep (τ := τ) som endTime store it (.thrown e)).1 = store ∧
      (dispatchStep (τ := τ) som endTime store it (.thrown e)).2 = ItemFate.rejected e ∧
      ∀ k, lookupKey k (dispatchStep (τ := τ) som endTime store it (.thrown e)).1 =
        lookupKey k store :=
  ⟨rfl, rfl, fun _ => rfl⟩

/-! ## Calendar arithmetic (`startOfNextMonth`, lines 181–185)

The code reads the UTC calendar fields of the current instant but builds the
result with the *local-time* `Date` constructor:
`new Date(now.getUTCFullYear(), now.getUTCMonth() + 1, 1)`.  The embedding
makes the environment's UTC offset an explicit parameter `tzOffsetMin`
(minutes east of UTC, assumed constant around the instants involved; 0 means
the process runs in UTC). -/

/-- Days since 1970-01-01 of the Gregorian date `y-m-d` (`m` 1-based);
standard civil-from-days arithmetic. -/
def daysFromCivil (y m d : Int) : Int :=
  let y' := y - (if m ≤ 2 then 1 else 0)
  let era := Int.fdiv y' 400
  let yoe := y' - era * 400
  let mp := Int.emod (m + 9) 12
  let doy := Int.fdiv (153 * mp + 2) 5 + d - 1
  let doe := yoe * 365 + Int.fdiv yoe 4 - Int.fdiv yoe 100 + doy
  era * 146097 + doe - 719468

/-- Gregorian date `(y, m, d)` (`m` 1-based) of a day count since 1970-01-01;
inverse of `daysFromCivil`. -/
def civilFromDays (z : Int) : Int × Int × Int :=
  let z' := z + 719468
  let era := Int.fdiv z' 146097
  let doe := z' - era * 146097
  let yoe := Int.fdiv (doe - Int.fdiv doe 1460 + Int.fdiv doe 36524 - Int.fdiv doe 146096) 365
  let y := yoe + era * 400
  let doy := doe - (365 * yoe + Int.fdiv yoe 4 - Int.fdiv yoe 100)
  let mp := Int.fdiv (5 * doy + 2) 153
  let d := doy - Int.fdiv (153 * mp + 2) 5 + 1
  let m := mp + (if mp < 10 then 3 else -9)
  (y + (if m ≤ 2 then 1 else 0), m, d)

/-- `getUTCFullYear`/`getUTCMonth` of an epoch-ms instant: the UTC year and
0-based month. -/
def getUTCYearMonth (ms : Int) : Int × Int :=
  let c := civilFromDays (Int.fdiv ms 86400000)
  (c.1, c.2.1 - 1)

/-- `new Date(year, month0, day).getTime()` for a fixed UTC offset (minutes):
the month is normalized with overflow into the year, the wall-clock instant is
interpreted in local time.  (Assumes `year ≥ 100`, avoiding the constructor's
1900-mapping of two-digit years, and a constant offset, i.e. no DST jump at
the instant itself.) -/
def jsNewDateLocalMs (tzOffsetMin y m0 d : Int) : Int :=
  let yN := y + Int.fdiv m0 12
  let m0N := Int.emod m0 12
  daysFromCivil yN (m0N + 1) d * 86400000 - tzOffsetMin * 60000

/-- `RequestQueuer.startOfNextMonth`: UTC calendar fields of `now`, then the
local-time constructor on `(utcYear, utcMonth + 1, 1)`. -/
def startOfNextMonth (tzOffsetMin nowMs : Int) : Int :=
  let ym := getUTCYearMonth nowMs
  jsNewDateLocalMs tzOffsetMin ym.1 (ym.2 + 1) 1

/-- The value the spec requires: the epoch-ms of the first instant of the next
UTC calendar month after `nowMs`, computed from the UTC calendar. -/
def startOfNextMonthUTC (nowMs : Int) : Int :=
  let ym := getUTCYearMonth nowMs
  let yN := ym.1 + Int.fdiv (ym.2 + 1) 12
  let m0N := Int.emod (ym.2 + 1) 12
  daysFromCivil yN (m0N + 1) 1 * 86400000

/-- C5 (code bug).  At `now = 2025-03-31T23:00:00Z` in a UTC+2 environment
(offset 120 min), `startOfNextMonth` returns 2025-03-31T22:00:00Z — one hour
*before* `now` and not the first instant of the next UTC month
(2025-04-01T00:00:00Z); consequently a monthly reset fired at that instant
stores a reset-at in the past.  With offset 0 the code agrees with the spec,
isolating the local-time `Date` constructor as the cause. -/
theorem startOfNextMonth_localtime_bug :
    startOfNextMonth 120 1743462000000 = 1743458400000 ∧
      startOfNextMonth 120 1743462000000 < 1743462000000 ∧
      startOfNextMonthUTC 1743462000000 = 1743465600000 ∧
      startOfNextMonth 120 1743462000000 ≠ startOfNextMonthUTC 1743462000000 ∧
      (maybeResetMonthlyRequests (startOfNextMonth 120 1743462000000) 1743462000000
          ⟨[], [], [], 0, 1743462000000, 7, 1743462000000, 0, 0⟩).monthRequestResetAt <
        1743462000000 ∧
      startOfNextMonth 0 1743462000000 = startOfNextMonthUTC 1743462000000 := by
  refine ⟨by decide, by decide, by decide, by decide, by decide, by decide⟩

/-- C6 (code bug).  The real admission check applies all four maintenance
operations, but the simulated check inside `estimateWaitMs` applies only
three: the minute-token reset is missing (its helper
`maybeResetMinuteTokensSim` is defined at line 450 and never called).  On a
bucket whose minute-token window is exactly stale (`now − windowStart =
60 000`, count 999) under a `TPm 5` limit and a request of 10 tokens, the real
check resets the window and returns a wait of 60 000 ms while the simulated
check returns 0, and the simulated bucket keeps the stale window fields. -/
theorem sim_omits_minute_token_reset :
    (computeWaitMs ⟨[⟨.TPm, 5⟩], [], 0⟩ 2000000000 100000
        [("m", ⟨[], [], [], 0, 1000000000, 0, 1000000000, 999, 40000⟩)] (some "m") 10).1 =
      60000 ∧
    (computeWaitSim ⟨[⟨.TPm, 5⟩], [], 0⟩ 2000000000 100000 100000
        [("m", ⟨[], [], [], 0, 1000000000, 0, 1000000000, 999, 40000⟩)] (some "m") 10).1 =
      0 ∧
    lookupKey "m" (computeWaitSim ⟨[⟨.TPm, 5⟩], [], 0⟩ 2000000000 100000 100000
        [("m", ⟨[], [], [], 0, 1000000000, 0, 1000000000, 999, 40000⟩)] (some "m") 10).2 =
      some ⟨[], [], [], 0, 1000000000, 0, 1000000000, 999, 40000⟩ :=
  ⟨by decide, by decide, by decide⟩

/-! ## Remote usage store (`pocketbaseUsageStrategy`, `usage-strategy.ts`)

The in-process state is the bucket map, the key → record-id map and the dirty
set `changed`; the remote collection is a record-id → data map.  Network
outcomes (HTTP ok / not-ok, thrown fetch errors collapse to not-ok) are passed
in as oracles `patchOk`/`createOk`, and `newId` is the server-assigned id of a
created record. -/

structure PBState where
  map : List (String × UsageBucket)
  recordIds : List (String × String)
  changed : List String
deriving Repr, DecidableEq

structure RemoteStore where
  records : List (String × UsageBucket)
deriving Repr, DecidableEq

/-- `makeKey`: namespace the model key with the label when one is set. -/
def makeKey (label : Option String) (modelKey : String) : String :=
  match label with
  | some l => if l = "" then modelKey else l ++ "::" ++ modelKey
  | none => modelKey

/-- `Set.add` on the dirty set. -/
def insertChanged (k : String) (l : List String) : List String :=
  if k ∈ l then l else l ++ [k]

/-- `pocketbaseUsageStrategy.getBucket`: on a miss the fresh bucket is stored
and the key is marked dirty; on a hit nothing is marked. -/
def pbGetBucket (initB : UsageBucket) (label : Option String) (st : PBState)
    (modelKey : String) : UsageBucket × PBState :=
  let k := makeKey label modelKey
  match lookupKey k st.map with
  | some u => (u, st)
  | none =>
    (initB, { st with map := setKey k initB st.map, changed := insertChanged k st.changed })

/-- `RequestQueuer.recordUsage` against the pocketbase store: the bucket
obtained from `getBucket` is mutated in place (modelled as a write-back of the
updated bucket under the same key, through the shared reference); the code
never calls `setBucket`, so the dirty set is not touched here. -/
def pbRecordUsage (initB : UsageBucket) (label : Option String) (now tokens : Int)
    (modelName : Option String) (st : PBState) : PBState :=
  let p := pbGetBucket initB label st (jsKey modelName)
  { p.2 with
    map := setKey (makeKey label (jsKey modelName)) (recordBucket now tokens p.1) p.2.map }

/-- One iteration of the `for (const key of toPersist)` loop of `persist`:
update when a record id is known (falling back to create when the update
fails), create otherwise; a failed create is logged and swallowed. -/
def pbPersistKey (patchOk createOk : String → Bool) (newId : String → String)
    (acc : PBState × RemoteStore) (key : String) : PBState × RemoteStore :=
  match lookupKey key acc.1.map with
  | none => acc
  | some bucket =>
    match lookupKey key acc.1.recordIds with
    | some rid =>
      if patchOk rid then (acc.1, ⟨setKey rid bucket acc.2.records⟩)
      else
        if createOk key then
          ({ acc.1 with recordIds := setKey key (newId key) acc.1.recordIds },
            ⟨setKey (newId key) bucket acc.2.records⟩)
        else acc
    | none =>
      if createOk key then
        ({ acc.1 with recordIds := setKey key (newId key) acc.1.recordIds },
          ⟨setKey (newId key) bucket acc.2.records⟩)
      else acc

/-- `pocketbaseUsageStrategy.persist`: an authentication failure throws before
the dirty set is read; otherwise the dirty set is snapshotted and *cleared
up front*, then each snapshotted key is written with per-key error
swallowing. -/
def pbPersist (authOk : Bool) (patchOk createOk : String → Bool) (newId : String → String)
    (st : PBState) (remote : RemoteStore) : PBState × RemoteStore :=
  if authOk then
    st.changed.foldl (pbPersistKey patchOk createOk newId) ({ st with changed := [] }, remote)
  else (st, remote)

/-- C7 (code bug).  Remote store seeded with a record (`id "rid"`, key
`"q1::m"`, `monthRequestCount = 10`) already loaded into the map with its
record id and a clean dirty set (as `bootstrap` leaves it).  One successful
dispatch records usage — the in-memory bucket advances to 11 — but the dirty
set stays empty, because `recordUsage` mutates the bucket in place and
`getBucket` marks dirty only on creation; a subsequent all-success `persist`
therefore writes nothing and the remote record still holds 10, not the 11 the
spec's scenario S5 requires. -/
theorem pb_record_not_marked_dirty :
    (pbRecordUsage (makeInitial 2000000000 1000) (some "q1") 1000 0 (some "m")
          ⟨[("q1::m", ⟨[], [], [], 0, 1000000000, 10, 1000000000, 0, 0⟩)],
            [("q1::m", "rid")], []⟩).changed = [] ∧
      (lookupKey "q1::m" (pbRecordUsage (makeInitial 2000000000 1000) (some "q1") 1000 0
          (some "m")
          ⟨[("q1::m", ⟨[], [], [], 0, 1000000000, 10, 1000000000, 0, 0⟩)],
            [("q1::m", "rid")], []⟩).map).map UsageBucket.monthRequestCount = some 11 ∧
      (pbPersist true (fun _ => true) (fun _ => true) (fun k => k)
          (pbRecordUsage (makeInitial 2000000000 1000) (some "q1") 1000 0 (some "m")
            ⟨[("q1::m", ⟨[], [], [], 0, 1000000000, 10, 1000000000, 0, 0⟩)],
              [("q1::m", "rid")], []⟩)
          ⟨[("rid", ⟨[], [], [], 0, 1000000000, 10, 1000000000, 0, 0⟩)]⟩).2 =
        ⟨[("rid", ⟨[], [], [], 0, 1000000000, 10, 1000000000, 0, 0⟩)]⟩ :=
  ⟨by decide, by decide, by decide⟩

/-- C8 (counterexample to the claim as stated).  A dirty key whose update and
fallback create both fail: `persist` returns with the dirty set *empty* — the
flag does not remain set, so no later flush retries the write. -/
theorem pb_persist_failure_clears_dirty_counterexample :
    (pbPersist true (fun _ => false) (fun _ => false) (fun k => k)
          ⟨[("k", ⟨[], [], [], 0, 5, 1, 5, 0, 0⟩)], [("k", "rid")], ["k"]⟩
          ⟨[]⟩).1.changed = [] ∧
      (pbPersist true (fun _ => false) (fun _ => false) (fun k => k)
          ⟨[("k", ⟨[], [], [], 0, 5, 1, 5, 0, 0⟩)], [("k", "rid")], ["k"]⟩
          ⟨[]⟩).2 = ⟨[]⟩ :=
  ⟨by decide, by decide⟩

theorem pbPersist_fold_changed (patchOk createOk : String → Bool) (newId : String → String) :
    ∀ (keys : List String) (acc : PBState × RemoteStore),
      (keys.foldl (pbPersistKey patchOk createOk newId) acc).1.changed = acc.1.changed := by
  intro keys
  induction keys with
  | nil => intro acc; rfl
  | cons k rest ih =>
    intro acc
    rw [List.foldl_cons, ih]
    cases hm : lookupKey k acc.1.map with
    | none => simp only [pbPersistKey, hm]
    | some bucket =>
      cases hr : lookupKey k acc.1.recordIds with
      | some rid =>
        simp only [pbPersistKey, hm, hr]
        split_ifs <;> rfl
      | none =>
        simp only [pbPersistKey, hm, hr]
        split_ifs <;> rfl

/-- C8 (amended).  Write errors during `persist` are swallowed per key and
dispatch proceeds, but the dirty set was already cleared when the writes were
attempted and a failed write does not re-mark its key, so after any `persist`
that got past authentication the dirty set is empty — a later flush does not
retry the failed bucket.  Only an authentication failure, which aborts
`persist` before the dirty set is read, leaves the state (and the dirty
flags) untouched for a later retry. -/
theorem pb_persist_failure_dirty_flag (patchOk createOk : String → Bool)
    (newId : String → String) (st : PBState) (remote : RemoteStore) :
    (pbPersist true patchOk createOk newId st remote).1.changed = [] ∧
      pbPersist false patchOk createOk newId st remote = (st, remote) := by
  constructor
  · unfold pbPersist
    rw [if_pos rfl, pbPersist_fold_changed]
  · rfl

/-! ## The wait estimator (`estimateWaitMs`, lines 362–586) -/

/-- An entry of the simulated queue: the pending items plus one hypothetical
tail item representing the new request. -/
structure SimItem where
  modelName : Option String
  tokens : Int
  hypothetical : Bool
deriving Repr, DecidableEq

/-- The runnable scan of the simulation loop (same structure as the dispatch
scan, but with the simulated admission check). -/
def scanSim (opts : QueuerOptions) (som nowOuter t : Int) :
    Store → List SimItem → Store × Option Nat × Option Int
  | store, [] => (store, none, none)
  | store, item :: rest =>
    let p := computeWaitSim opts som nowOuter t store item.modelName item.tokens
    if p.1 ≤ 0 then (p.2, some 0, none)
    else
      let q := scanSim opts som nowOuter t p.2 rest
      (q.1, q.2.1.map (· + 1),
        some (match q.2.2 with | none => p.1 | some mw => min p.1 mw))

/-- `recordUsageSim`: record the dispatched simulated item into the simulated
store at cursor time `t` (bucket creation uses the outer `now`). -/
def recordUsageSimStore (som nowOuter t tokens : Int) (m : Option String)
    (store : Store) : Store :=
  let p := getBucketIn som nowOuter store m
  setKey (jsKey m) (recordBucket t tokens p.1) p.2

/-- The `while (simQueue.length)` loop of `estimateWaitMs`, with fuel (the
JavaScript loop has no bound; `none` means the fuel ran out; the
`simQueue[i]?` miss branch is unreachable because the scan index is in
range). -/
def estimateLoop (opts : QueuerOptions) (som nowOuter perItemExecMs : Int) :
    Nat → Int → Store → List SimItem → Option Int
  | 0, _, _, _ => none
  | fuel + 1, tCursor, store, simQueue =>
    match simQueue with
    | [] => some 0
    | _ :: _ =>
      let s := scanSim opts som nowOuter tCursor store simQueue
      match s.2.1 with
      | none =>
        estimateLoop opts som nowOuter perItemExecMs fuel
          (tCursor + sleepMs s.2.2) s.1 simQueue
      | some i =>
        match simQueue[i]? with
        | none => none
        | some next =>
          let rest := simQueue.eraseIdx i
          if next.hypothetical then some (max 0 (tCursor - nowOuter))
          else
            estimateLoop opts som nowOuter perItemExecMs fuel
              (tCursor + max 0 perItemExecMs +
                (if opts.fallbackDelayMs ≠ 0 ∧ rest ≠ [] then opts.fallbackDelayMs else 0))
              (recordUsageSimStore som nowOuter tCursor next.tokens next.modelName s.1)
              rest

/-- The simulated queue: every pending item (model, `tokens || 0`) followed by
the hypothetical item `(modelName, max 0 tokensNeeded)`. -/
def toSimQueue (queue : List QueueItem) (modelName : Option String)
    (tokensNeeded : Int) : List SimItem :=
  queue.map (fun q => ⟨q.modelName, itemTokens q, false⟩) ++
    [⟨modelName, max 0 tokensNeeded, true⟩]

/-- `RequestQueuer.estimateWaitMs`.  `execEwmaMs` is the current execution-time
average (`none` before the first sample, giving the 500 ms seed); `entries`
the deep-copied usage store. -/
def estimateWaitMs (opts : QueuerOptions) (som now : Int) (execEwmaMs : Option Int)
    (entries : Store) (queue : List QueueItem) (modelName : Option String)
    (tokensNeeded : Int) (fuel : Nat) : Option Int :=
  if limitsEmpty (getActiveLimits opts modelName) = true ∧ opts.fallbackDelayMs = 0 then
    some 0
  else
    estimateLoop opts som now (execEwmaMs.getD 500) fuel now entries
      (toSimQueue queue modelName tokensNeeded)

/-- The decision `add` makes before enqueuing (lines 196–202): with no active
limits for the model and no fallback delay, execute immediately without
enqueuing or touching the usage store. -/
inductive AddAction where
  | executeImmediately
  | enqueue
deriving Repr, DecidableEq

def addAction (opts : QueuerOptions) (modelName : Option String) : AddAction :=
  if limitsEmpty (getActiveLimits opts modelName) = true ∧ opts.fallbackDelayMs = 0 then
    .executeImmediately
  else .enqueue

/-- C10.  For a model whose merged active limit set is empty, on a Queuer with
no fallback delay, `estimateWaitMs` returns 0 immediately — for every queue,
every usage store and even zero fuel, i.e. without replaying the queue —
mirroring `add`'s fast path, which executes such a request immediately
without enqueuing. -/
theorem estimate_zero_no_limits (opts : QueuerOptions) (som now tokensNeeded : Int)
    (execEwmaMs : Option Int) (entries : Store) (queue : List QueueItem)
    (m : Option String) (fuel : Nat)
    (hlim : limitsEmpty (getActiveLimits opts m) = true)
    (hfb : opts.fallbackDelayMs = 0) :
    estimateWaitMs opts som now execEwmaMs entries queue m tokensNeeded fuel = some 0 ∧
      addAction opts m = AddAction.executeImmediately := by
  unfold estimateWaitMs addAction
  rw [if_pos ⟨hlim, hfb⟩, if_pos ⟨hlim, hfb⟩]
  exact ⟨rfl, rfl⟩

/-- Witness for C10: no limits configured at all, zero fuel, non-empty queue
and store. -/
theorem estimate_zero_no_limits_witness :
    estimateWaitMs ⟨[], [], 0⟩ 777 100 (some 5000)
        [("m", ⟨[], [], [], 0, 99, 0, 99, 0, 0⟩)] [⟨1, some 5, some "m"⟩] (some "m") 9 0 =
      some 0 ∧
      addAction ⟨[], [], 0⟩ (some "m") = AddAction.executeImmediately :=
  estimate_zero_no_limits ⟨[], [], 0⟩ 777 100 9 (some 5000)
    [("m", ⟨[], [], [], 0, 99, 0, 99, 0, 0⟩)] [⟨1, some 5, some "m"⟩] (some "m") 0
    (by decide) (by decide)

/-- C9 (counterexample to the claim as stated).  Model "x" has limits
`TPm 10, RPS 1, RPM 1`, model "h" has `RPm 1` and its bucket blocks the
hypothetical request until `now + 10000`.  With the pending queue `[x: 20
tokens]` the estimate is 14999: the pending item becomes runnable at 9999
(just before the hypothetical's ready time) and its simulated 5000 ms
execution carries the cursor past 10000.  Appending one more pending item
`[x: 0 tokens]` *decreases* the estimate to 10000: the appended item runs
immediately, its recorded request trips x's monthly `RPM 1` limit, the first
pending item is thereby delayed past 10000, and the hypothetical dispatches
exactly at its ready time. -/
theorem estimator_not_monotone_counterexample :
    estimateWaitMs ⟨[], [("x", [⟨.TPm, 10⟩, ⟨.RPS, 1⟩, ⟨.RPM, 1⟩]), ("h", [⟨.RPm, 1⟩])], 0⟩
        1000000 0 (some 5000)
        [("x", ⟨[], [], [], 0, 100000, 0, 100000, 0, -50001⟩),
          ("h", ⟨[], [-50000], [], 0, 100000, 0, 100000, 0, 0⟩)]
        [⟨1, some 20, some "x"⟩] (some "h") 0 10 = some 14999 ∧
      estimateWaitMs ⟨[], [("x", [⟨.TPm, 10⟩, ⟨.RPS, 1⟩, ⟨.RPM, 1⟩]), ("h", [⟨.RPm, 1⟩])], 0⟩
        1000000 0 (some 5000)
        [("x", ⟨[], [], [], 0, 100000, 0, 100000, 0, -50001⟩),
          ("h", ⟨[], [-50000], [], 0, 100000, 0, 100000, 0, 0⟩)]
        [⟨1, some 20, some "x"⟩, ⟨2, some 0, some "x"⟩] (some "h") 0 10 = some 10000 ∧
      (10000 : Int) < 14999 :=
  ⟨by decide, by decide, by decide⟩

/-! ## Monotonicity of the estimator on an empty queue (amended C9)

The machinery below characterises the simulated admission check as a pure
function of time and the initial bucket (the check-maintenance it writes back
is absorbed by later checks), proves that a positive simulated wait persists
positively up to its own expiry (so the simulation cursor never skips over the
hypothetical item's ready time), and derives: with an empty pending queue,
appending one item for a different bucket key can only delay the hypothetical
request. -/

/-- Normal form of the three simulated maintenance operations. -/
theorem maintainBucketSim_mk (som now : Int) (sec mnt day : List Int)
    (mtc mtr mrc mrr mintc mintw : Int) :
    maintainBucketSim som now ⟨sec, mnt, day, mtc, mtr, mrc, mrr, mintc, mintw⟩ =
      ⟨pruneList (now - 1000) sec, pruneList (now - 60000) mnt,
        pruneList (now - 86400000) day,
        if mtr ≤ now then 0 else mtc, if mtr ≤ now then som else mtr,
        if mrr ≤ now then 0 else mrc, if mrr ≤ now then som else mrr,
        mintc, mintw⟩ := by
  simp only [maintainBucketSim, maybeResetMonthlyTokens, maybeResetMonthlyRequests,
    pruneWindows]
  split_ifs <;> rfl

theorem dropWhile_compose {α : Type} (p q : α → Bool) (l : List α)
    (h : ∀ a, p a = true → q a = true) :
    (l.dropWhile p).dropWhile q = l.dropWhile q := by
  induction l with
  | nil => rfl
  | cons a t ih =>
    by_cases hp : p a = true
    · rw [List.dropWhile_cons_of_pos hp, ih, List.dropWhile_cons_of_pos (h a hp)]
    · rw [List.dropWhile_cons_of_neg hp]

theorem pruneList_compose (c1 c2 : Int) (l : List Int) (h : c1 ≤ c2) :
    pruneList c2 (pruneList c1 l) = pruneList c2 l := by
  apply dropWhile_compose
  intro a ha
  simp only [decide_eq_true_eq] at ha ⊢
  omega

/-- Simulated maintenance at a later instant absorbs simulated maintenance at
an earlier one: the state of a simulated bucket after any sequence of checks
is a function of the last check time alone. -/
theorem maintainBucketSim_compose (som t' t : Int) (u : UsageBucket) (h : t' ≤ t) :
    maintainBucketSim som t (maintainBucketSim som t' u) = maintainBucketSim som t u := by
  cases u with
  | mk sec mnt day mtc mtr mrc mrr mintc mintw =>
    rw [maintainBucketSim_mk, maintainBucketSim_mk, maintainBucketSim_mk,
      UsageBucket.mk.injEq]
    refine ⟨pruneList_compose _ _ _ (by omega), pruneList_compose _ _ _ (by omega),
      pruneList_compose _ _ _ (by omega), ?_, ?_, ?_, ?_, rfl, rfl⟩ <;>
      split_ifs <;> first | rfl | omega

/-- The bucket the simulated check reads for a key: the stored one, or the
fresh bucket a miss would create. -/
def storeBucket (som nowOuter : Int) (store : Store) (m : Option String) : UsageBucket :=
  match lookupKey (jsKey m) store with
  | some u => u
  | none => makeInitial som nowOuter

/-- The value of the simulated admission check as a pure function of the
bucket. -/
def simWaitVal (opts : QueuerOptions) (som t : Int) (u : UsageBucket)
    (m : Option String) (tok : Int) : Int :=
  match getActiveLimits opts m with
  | none => 0
  | some [] => 0
  | some ls => max 0 (ls.foldl (waitStep t tok (maintainBucketSim som t u)) 0)

theorem computeWaitSim_fst (opts : QueuerOptions) (som nowOuter t tok : Int)
    (store : Store) (m : Option String) :
    (computeWaitSim opts som nowOuter t store m tok).1 =
      simWaitVal opts som t (storeBucket som nowOuter store m) m tok := by
  simp only [computeWaitSim, simWaitVal, storeBucket, getBucketIn]
  cases hact : getActiveLimits opts m with
  | none => rfl
  | some ls =>
    cases ls with
    | nil => rfl
    | cons a as => cases h : lookupKey (jsKey m) store <;> simp [h]

theorem simWaitVal_nonneg (opts : QueuerOptions) (som t tok : Int) (u : UsageBucket)
    (m : Option String) : 0 ≤ simWaitVal opts som t u m tok := by
  unfold simWaitVal
  cases getActiveLimits opts m with
  | none => simp
  | some ls => cases ls with
    | nil => simp
    | cons a as => simp [le_max_left]

/-- The simulated wait is unchanged by earlier simulated maintenance of the
bucket. -/
theorem simWaitVal_maintain (opts : QueuerOptions) (som t' t tok : Int)
    (u : UsageBucket) (m : Option String) (h : t' ≤ t) :
    simWaitVal opts som t (maintainBucketSim som t' u) m tok =
      simWaitVal opts som t u m tok := by
  unfold simWaitVal
  rw [maintainBucketSim_compose som t' t u h]

theorem computeWaitSim_snd_lookup (opts : QueuerOptions) (som nowOuter t tok : Int)
    (store : Store) (m : Option String) (a : RateLimitConfig) (as : List RateLimitConfig)
    (hact : getActiveLimits opts m = some (a :: as)) (k2 : String) :
    lookupKey k2 (computeWaitSim opts som nowOuter t store m tok).2 =
      if k2 = jsKey m then some (maintainBucketSim som t (storeBucket som nowOuter store m))
      else lookupKey k2 store := by
  simp only [computeWaitSim, hact, storeBucket]
  by_cases hk : k2 = jsKey m
  · subst hk
    simp only [getBucketIn]
    cases h : lookupKey (jsKey m) store <;> simp [lookupKey_setKey_self]
  · rw [if_neg hk]
    simp only [getBucketIn]
    cases h : lookupKey (jsKey m) store with
    | some u => rw [lookupKey_setKey_ne _ _ _ _ hk]
    | none => rw [lookupKey_setKey_ne _ _ _ _ hk, lookupKey_setKey_ne _ _ _ _ hk]

theorem computeWaitSim_snd_empty (opts : QueuerOptions) (som nowOuter t tok : Int)
    (store : Store) (m : Option String)
    (hact : limitsEmpty (getActiveLimits opts m) = true) :
    (computeWaitSim opts som nowOuter t store m tok).2 = store := by
  unfold computeWaitSim
  cases h : getActiveLimits opts m with
  | none => rfl
  | some ls =>
    cases ls with
    | nil => rfl
    | cons a as => rw [h] at hact; simp [limitsEmpty] at hact

/-- A simulated check of a different key does not change the bucket the
hypothetical request reads. -/
theorem storeBucket_after_other_check (opts : QueuerOptions) (som nowOuter t tok : Int)
    (store : Store) (mE m : Option String) (hne : jsKey mE ≠ jsKey m) :
    storeBucket som nowOuter (computeWaitSim opts som nowOuter t store mE tok).2 m =
      storeBucket som nowOuter store m := by
  cases hact : getActiveLimits opts mE with
  | none => rw [computeWaitSim_snd_empty opts som nowOuter t tok store mE (by simp [limitsEmpty, hact])]
  | some ls =>
    cases ls with
    | nil => rw [computeWaitSim_snd_empty opts som nowOuter t tok store mE (by simp [limitsEmpty, hact])]
    | cons a as =>
      unfold storeBucket
      rw [computeWaitSim_snd_lookup opts som nowOuter t tok store mE a as hact,
        if_neg (fun hh => hne hh.symm)]

/-- A simulated check of the hypothetical's own key replaces its bucket with
the maintained one. -/
theorem storeBucket_after_self_check (opts : QueuerOptions) (som nowOuter t tok : Int)
    (store : Store) (m : Option String) (a : RateLimitConfig) (as : List RateLimitConfig)
    (hact : getActiveLimits opts m = some (a :: as)) :
    storeBucket som nowOuter (computeWaitSim opts som nowOuter t store m tok).2 m =
      maintainBucketSim som t (storeBucket som nowOuter store m) := by
  have h := computeWaitSim_snd_lookup opts som nowOuter t tok store m a as hact (jsKey m)
  rw [if_pos rfl] at h
  unfold storeBucket
  rw [h]
  simp only [storeBucket]

/-- Recording a dispatched simulated item of a different key does not change
the bucket the hypothetical request reads. -/
theorem storeBucket_after_other_record (som nowOuter t tok : Int) (store : Store)
    (mE m : Option String) (hne : jsKey mE ≠ jsKey m) :
    storeBucket som nowOuter (recordUsageSimStore som nowOuter t tok mE store) m =
      storeBucket som nowOuter store m := by
  have hne' : jsKey m ≠ jsKey mE := fun hh => hne hh.symm
  unfold recordUsageSimStore getBucketIn
  cases h : lookupKey (jsKey mE) store with
  | some u =>
    simp only [h]
    unfold storeBucket
    rw [lookupKey_setKey_ne _ _ _ _ hne']
  | none =>
    simp only [h]
    unfold storeBucket
    rw [lookupKey_setKey_ne _ _ _ _ hne', lookupKey_setKey_ne _ _ _ _ hne']

theorem le_foldl_max_init (l : List Int) : ∀ a : Int, a ≤ l.foldl max a := by
  induction l with
  | nil => intro a; exact le_refl a
  | cons c t ih => intro a; exact le_trans (le_max_left a c) (ih (max a c))

theorem le_foldl_max_mem (l : List Int) : ∀ (a x : Int), x ∈ l → x ≤ l.foldl max a := by
  induction l with
  | nil => intro a x hx; simp at hx
  | cons c t ih =>
    intro a x hx
    rw [List.foldl_cons]
    rcases List.mem_cons.mp hx with h | h
    · subst h
      exact le_trans (le_max_right a x) (le_foldl_max_init t _)
    · exact ih _ x h

theorem foldl_max_attained (l : List Int) : ∀ a : Int, l.foldl max a = a ∨ l.foldl max a ∈ l := by
  induction l with
  | nil => intro a; exact Or.inl rfl
  | cons c t ih =>
    intro a
    rw [List.foldl_cons]
    rcases ih (max a c) with h | h
    · rcases max_choice a c with hm | hm
      · exact Or.inl (h.trans hm)
      · exact Or.inr (by rw [h, hm]; exact List.mem_cons_self c t)
    · exact Or.inr (List.mem_cons_of_mem c h)

/-- A triggered sliding-window candidate persists unchanged until its own
expiry: while `s < t + w` the pruned window still starts with the same
earliest entry (pruning only removes a head segment, and the head is not yet
old enough), so the candidate has decayed exactly linearly. -/
theorem windowCandidate_persists (W lim t s w tokW : Int) (sec : List Int)
    (hc : (if lim ≤ ((pruneList (t - W) sec).length : Int) then
        (pruneList (t - W) sec).head?.map (fun e => W - (t - e)) else none) = some w)
    (hw : 0 < w) (hts : t ≤ s) (hst : s < t + w) :
    (if lim ≤ ((pruneList (s - W) sec).length : Int) then
        (pruneList (s - W) sec).head?.map (fun e => W - (s - e)) else none) =
      some (w - (s - t)) := by
  by_cases hlen : lim ≤ ((pruneList (t - W) sec).length : Int)
  · rw [if_pos hlen] at hc
    rw [Option.map_eq_some'] at hc
    obtain ⟨e, he, hwe⟩ := hc
    cases hl : pruneList (t - W) sec with
    | nil => rw [hl] at he; simp at he
    | cons e' tl =>
      have he' : e' = e := by
        rw [hl] at he
        simpa using he
      rw [← he'] at hwe
      rw [hl] at hlen
      have hpers : pruneList (s - W) sec = e' :: tl := by
        have h1 : pruneList (s - W) sec = pruneList (s - W) (pruneList (t - W) sec) :=
          (pruneList_compose (t - W) (s - W) sec (by omega)).symm
        rw [h1, hl]
        unfold pruneList
        rw [List.dropWhile_cons_of_neg]
        simp only [decide_eq_true_eq]
        omega
      rw [hpers, if_pos (by simpa using hlen)]
      simp only [List.head?_cons, Option.map_some', Option.some.injEq]
      omega
  · rw [if_neg hlen] at hc
    exact absurd hc (by simp)

/-- A triggered candidate of the simulated admission check persists, decayed
exactly linearly, while `s < t + w`. -/
theorem specCandidate_persists (som t s tok w : Int) (u : UsageBucket) (l : RateLimitConfig)
    (hc : specCandidate t tok (maintainBucketSim som t u) l = some w)
    (hw : 0 < w) (hts : t ≤ s) (hst : s < t + w) :
    specCandidate s tok (maintainBucketSim som s u) l = some (w - (s - t)) := by
  obtain ⟨sec, mnt, day, mtc, mtr, mrc, mrr, mintc, mintw⟩ := u
  obtain ⟨ty, lim⟩ := l
  rw [maintainBucketSim_mk] at hc ⊢
  cases ty with
  | RPS => exact windowCandidate_persists 1000 lim t s w tok sec hc hw hts hst
  | RPm => exact windowCandidate_persists 60000 lim t s w tok mnt hc hw hts hst
  | RPD => exact windowCandidate_persists 86400000 lim t s w tok day hc hw hts hst
  | TPM =>
    simp only [specCandidate] at hc ⊢
    by_cases hr : mtr ≤ t
    · have hrs : mtr ≤ s := le_trans hr hts
      simp only [if_pos hr] at hc
      simp only [if_pos hrs]
      by_cases h1 : lim < 0 + max 0 tok
      · rw [if_pos h1] at hc
        rw [if_pos h1]
        simp only [Option.some.injEq] at hc ⊢
        omega
      · rw [if_neg h1] at hc
        exact absurd hc (by simp)
    · simp only [if_neg hr] at hc
      by_cases h1 : lim < mtc + max 0 tok
      · rw [if_pos h1] at hc
        simp only [Option.some.injEq] at hc
        have hrs : ¬ mtr ≤ s := by omega
        simp only [if_neg hrs]
        rw [if_pos h1]
        simp only [Option.some.injEq]
        omega
      · rw [if_neg h1] at hc
        exact absurd hc (by simp)
  | RPM =>
    simp only [specCandidate] at hc ⊢
    by_cases hr : mrr ≤ t
    · have hrs : mrr ≤ s := le_trans hr hts
      simp only [if_pos hr] at hc
      simp only [if_pos hrs]
      by_cases h1 : lim < 0 + 1
      · rw [if_pos h1] at hc
        rw [if_pos h1]
        simp only [Option.some.injEq] at hc ⊢
        omega
      · rw [if_neg h1] at hc
        exact absurd hc (by simp)
    · simp only [if_neg hr] at hc
      by_cases h1 : lim < mrc + 1
      · rw [if_pos h1] at hc
        simp only [Option.some.injEq] at hc
        have hrs : ¬ mrr ≤ s := by omega
        simp only [if_neg hrs]
        rw [if_pos h1]
        simp only [Option.some.injEq]
        omega
      · rw [if_neg h1] at hc
        exact absurd hc (by simp)
  | TPm =>
    simp only [specCandidate] at hc ⊢
    by_cases h0 : 60000 ≤ t - mintw
    · rw [if_pos h0] at hc
      exact absurd hc (by simp)
    · rw [if_neg h0] at hc
      by_cases h1 : lim < mintc + max 0 tok
      · rw [if_pos h1] at hc
        simp only [Option.some.injEq] at hc
        have hs0 : ¬ 60000 ≤ s - mintw := by omega
        rw [if_neg hs0, if_pos h1]
        simp only [Option.some.injEq]
        omega
      · rw [if_neg h1] at hc
        exact absurd hc (by simp)

/-- No-skip: a positive simulated wait stays positive until its own expiry. -/
theorem simWaitVal_pos_persists (opts : QueuerOptions) (som tok t s : Int)
    (u : UsageBucket) (m : Option String)
    (hw : 0 < simWaitVal opts som t u m tok) (hts : t ≤ s)
    (hst : s < t + simWaitVal opts som t u m tok) :
    0 < simWaitVal opts som s u m tok := by
  cases hact : getActiveLimits opts m with
  | none => simp [simWaitVal, hact] at hw
  | some ls =>
    cases ls with
    | nil => simp [simWaitVal, hact] at hw
    | cons a as =>
      simp only [simWaitVal, hact] at hw hst ⊢
      rw [foldl_waitStep_eq] at hw hst ⊢
      have hF : 0 < ((a :: as).filterMap
          (specCandidate t tok (maintainBucketSim som t u))).foldl max 0 := by
        rcases lt_max_iff.mp hw with h | h
        · exact absurd h (lt_irrefl 0)
        · exact h
      have hmem : ((a :: as).filterMap
          (specCandidate t tok (maintainBucketSim som t u))).foldl max 0 ∈
          (a :: as).filterMap (specCandidate t tok (maintainBucketSim som t u)) := by
        rcases foldl_max_attained _ 0 with h | h
        · rw [h] at hF; exact absurd hF (lt_irrefl 0)
        · exact h
      rw [List.mem_filterMap] at hmem
      obtain ⟨l, hl, hcand⟩ := hmem
      have hst' : s < t + ((a :: as).filterMap
          (specCandidate t tok (maintainBucketSim som t u))).foldl max 0 := by
        rw [max_eq_right (le_of_lt hF)] at hst
        exact hst
      have hpers := specCandidate_persists som t s tok _ u l hcand hF hts hst'
      have hmem' : (((a :: as).filterMap
            (specCandidate t tok (maintainBucketSim som t u))).foldl max 0 - (s - t)) ∈
          (a :: as).filterMap (specCandidate s tok (maintainBucketSim som s u)) :=
        List.mem_filterMap.mpr ⟨l, hl, hpers⟩
      have hle := le_foldl_max_mem _ 0 _ hmem'
      have hpos : 0 < ((a :: as).filterMap
          (specCandidate s tok (maintainBucketSim som s u))).foldl max 0 :=
        lt_of_lt_of_le (by omega) hle
      exact lt_max_iff.mpr (Or.inr hpos)

theorem scanSim_one_pos (opts : QueuerOptions) (som nowO t : Int) (store : Store)
    (it : SimItem)
    (h : (computeWaitSim opts som nowO t store it.modelName it.tokens).1 ≤ 0) :
    scanSim opts som nowO t store [it] =
      ((computeWaitSim opts som nowO t store it.modelName it.tokens).2, some 0, none) := by
  simp only [scanSim, if_pos h]

theorem scanSim_one_neg (opts : QueuerOptions) (som nowO t : Int) (store : Store)
    (it : SimItem)
    (h : ¬ (computeWaitSim opts som nowO t store it.modelName it.tokens).1 ≤ 0) :
    scanSim opts som nowO t store [it] =
      ((computeWaitSim opts som nowO t store it.modelName it.tokens).2, none,
        some (computeWaitSim opts som nowO t store it.modelName it.tokens).1) := by
  simp only [scanSim, if_neg h]
  rfl

theorem scanSim_two_first (opts : QueuerOptions) (som nowO t : Int) (store : Store)
    (it1 it2 : SimItem)
    (h : (computeWaitSim opts som nowO t store it1.modelName it1.tokens).1 ≤ 0) :
    scanSim opts som nowO t store [it1, it2] =
      ((computeWaitSim opts som nowO t store it1.modelName it1.tokens).2, some 0, none) := by
  simp only [scanSim, if_pos h]

theorem scanSim_two_second (opts : QueuerOptions) (som nowO t : Int) (store : Store)
    (it1 it2 : SimItem)
    (h1 : ¬ (computeWaitSim opts som nowO t store it1.modelName it1.tokens).1 ≤ 0)
    (h2 : (computeWaitSim opts som nowO t
        (computeWaitSim opts som nowO t store it1.modelName it1.tokens).2
        it2.modelName it2.tokens).1 ≤ 0) :
    scanSim opts som nowO t store [it1, it2] =
      ((computeWaitSim opts som nowO t
          (computeWaitSim opts som nowO t store it1.modelName it1.tokens).2
          it2.modelName it2.tokens).2, some 1,
        some (computeWaitSim opts som nowO t store it1.modelName it1.tokens).1) := by
  simp only [scanSim, if_neg h1, if_pos h2]
  rfl

theorem scanSim_two_none (opts : QueuerOptions) (som nowO t : Int) (store : Store)
    (it1 it2 : SimItem)
    (h1 : ¬ (computeWaitSim opts som nowO t store it1.modelName it1.tokens).1 ≤ 0)
    (h2 : ¬ (computeWaitSim opts som nowO t
        (computeWaitSim opts som nowO t store it1.modelName it1.tokens).2
        it2.modelName it2.tokens).1 ≤ 0) :
    scanSim opts som nowO t store [it1, it2] =
      ((computeWaitSim opts som nowO t
          (computeWaitSim opts som nowO t store it1.modelName it1.tokens).2
          it2.modelName it2.tokens).2, none,
        some (min (computeWaitSim opts som nowO t store it1.modelName it1.tokens).1
          (computeWaitSim opts som nowO t
            (computeWaitSim opts som nowO t store it1.modelName it1.tokens).2
            it2.modelName it2.tokens).1)) := by
  simp only [scanSim, if_neg h1, if_neg h2]
  rfl

/-- Invariant of the simulation loops: the hypothetical request's bucket is
either still the initial one or the result of simulated maintenance at some
check instant `≤ tc`. -/
def HypInv (som now : Int) (b0 : UsageBucket) (m : Option String) (tc : Int)
    (store : Store) : Prop :=
  storeBucket som now store m = b0 ∨
    ∃ t', now ≤ t' ∧ t' ≤ tc ∧ storeBucket som now store m = maintainBucketSim som t' b0

theorem hypInv_mono (som now : Int) (b0 : UsageBucket) (m : Option String)
    (tc tc' : Int) (store : Store) (h : HypInv som now b0 m tc store) (hle : tc ≤ tc') :
    HypInv som now b0 m tc' store := by
  rcases h with h | ⟨t', h1, h2, h3⟩
  · exact Or.inl h
  · exact Or.inr ⟨t', h1, le_trans h2 hle, h3⟩

/-- Under the invariant, the simulated check of the hypothetical's key reads
exactly the pure wait of the initial bucket. -/
theorem hypInv_wait (opts : QueuerOptions) (som now tk : Int) (b0 : UsageBucket)
    (m : Option String) (tc : Int) (store : Store)
    (h : HypInv som now b0 m tc store) (htc : now ≤ tc) :
    (computeWaitSim opts som now tc store m tk).1 = simWaitVal opts som tc b0 m tk := by
  rw [computeWaitSim_fst]
  rcases h with h | ⟨t', _, h2, h3⟩
  · rw [h]
  · rw [h3, simWaitVal_maintain opts som t' tc tk b0 m h2]

/-- A positive simulated wait forces a non-empty active limit set. -/
theorem simWaitVal_pos_active (opts : QueuerOptions) (som t tok : Int) (u : UsageBucket)
    (m : Option String) (h : 0 < simWaitVal opts som t u m tok) :
    ∃ a as, getActiveLimits opts m = some (a :: as) := by
  cases hact : getActiveLimits opts m with
  | none => simp [simWaitVal, hact] at h
  | some ls =>
    cases ls with
    | nil => simp [simWaitVal, hact] at h
    | cons a as => exact ⟨a, as, rfl⟩

/-- After a self-key check under the invariant, the invariant holds at the
check instant. -/
theorem hypInv_after_self_check (opts : QueuerOptions) (som now tk : Int)
    (b0 : UsageBucket) (m : Option String) (tc : Int) (store : Store)
    (h : HypInv som now b0 m tc store) (htc : now ≤ tc)
    (a : RateLimitConfig) (as : List RateLimitConfig)
    (hact : getActiveLimits opts m = some (a :: as)) :
    HypInv som now b0 m tc (computeWaitSim opts som now tc store m tk).2 := by
  have hself := storeBucket_after_self_check opts som now tc tk store m a as hact
  rcases h with h0 | ⟨t', h1, h2, h3⟩
  · exact Or.inr ⟨tc, htc, le_refl tc, by rw [hself, h0]⟩
  · refine Or.inr ⟨tc, htc, le_refl tc, ?_⟩
    rw [hself, h3, maintainBucketSim_compose som t' tc b0 h2]

theorem sleepMs_some_le (w : Int) (hw : 0 < w) : sleepMs (some w) ≤ w := by
  simp only [sleepMs]
  omega

theorem sleepMs_pos (mw : Option Int) : 1 ≤ sleepMs mw := by
  cases mw with
  | none => simp [sleepMs]
  | some w => simp only [sleepMs]; omega

/-- The single-item simulation (hypothetical only, the empty-queue estimate)
returns at most `T - now` for any instant `T ≥` the cursor at which the
hypothetical's pure wait has reached 0: the cursor advances by at most the
current positive wait, which persists positively until its expiry, so the
hypothetical is dispatched no later than `T`. -/
theorem estimateLoopA_le (opts : QueuerOptions) (som now per tk : Int)
    (m : Option String) (b0 : UsageBucket) (T : Int)
    (hWT : simWaitVal opts som T b0 m tk ≤ 0) :
    ∀ (fuel : Nat) (tc : Int) (store : Store) (vA : Int),
      now ≤ tc → tc ≤ T → HypInv som now b0 m tc store →
      estimateLoop opts som now per fuel tc store [⟨m, tk, true⟩] = some vA →
      vA ≤ T - now := by
  intro fuel
  induction fuel with
  | zero =>
    intro tc store vA _ _ _ h
    simp [estimateLoop] at h
  | succ n ih =>
    intro tc store vA htc hcT hinv hrun
    have hw := hypInv_wait opts som now tk b0 m tc store hinv htc
    by_cases hple : (computeWaitSim opts som now tc store m tk).1 ≤ 0
    · have hscan := scanSim_one_pos opts som now tc store ⟨m, tk, true⟩ hple
      simp only [estimateLoop, hscan] at hrun
      simp only [List.getElem?_cons_zero, if_true, Option.some.injEq] at hrun
      rw [max_eq_right (by omega : (0 : Int) ≤ tc - now)] at hrun
      omega
    · have hscan := scanSim_one_neg opts som now tc store ⟨m, tk, true⟩ hple
      simp only [estimateLoop, hscan] at hrun
      have hpos : 0 < simWaitVal opts som tc b0 m tk := by omega
      obtain ⟨a, as, hact⟩ := simWaitVal_pos_active opts som tc tk b0 m
        (by
          have := hpos
          exact this)
      have hinv' := hypInv_after_self_check opts som now tk b0 m tc store hinv htc a as hact
      have hsleep1 : 1 ≤ sleepMs (some (computeWaitSim opts som now tc store m tk).1) :=
        sleepMs_pos _
      have hsleeple : sleepMs (some (computeWaitSim opts som now tc store m tk).1) ≤
          simWaitVal opts som tc b0 m tk := by
        rw [hw]
        exact sleepMs_some_le _ hpos
      have hTfar : tc + simWaitVal opts som tc b0 m tk ≤ T := by
        by_contra hcon
        push_neg at hcon
        by_cases hTeq : tc = T
        · subst hTeq; omega
        · have hlt : tc < T := lt_of_le_of_ne hcT hTeq
          have := simWaitVal_pos_persists opts som tk tc T b0 m hpos (le_of_lt hlt)
            (by omega)
          omega
      exact ih (tc + sleepMs (some (computeWaitSim opts som now tc store m tk).1))
        (computeWaitSim opts som now tc store m tk).2 vA
        (by omega) (by omega)
        (hypInv_mono som now b0 m tc _ _ hinv' (by omega)) hrun

theorem hypInv_store_eq (som now : Int) (b0 : UsageBucket) (m : Option String)
    (tc : Int) (store store' : Store)
    (heq : storeBucket som now store' m = storeBucket som now store m)
    (h : HypInv som now b0 m tc store) : HypInv som now b0 m tc store' := by
  rcases h with h | ⟨t', h1, h2, h3⟩
  · exact Or.inl (heq.trans h)
  · exact Or.inr ⟨t', h1, h2, heq.trans h3⟩

/-- Any terminating run of the simulation loop over the hypothetical item,
optionally preceded by one pending item for a *different* bucket key, returns
`max 0 (T - now)` for some instant `T ≥ now` at which the hypothetical's pure
wait is 0 (the other item never changes the hypothetical's bucket, and the
hypothetical is dispatched only at a cursor where its own wait is 0). -/
theorem estimateLoopB_ex (opts : QueuerOptions) (som now per tk tokE : Int)
    (m mE : Option String) (b0 : UsageBucket)
    (hkey : jsKey mE ≠ jsKey m) (hfb : 0 ≤ opts.fallbackDelayMs) :
    ∀ (fuel : Nat) (tc : Int) (store : Store) (q : List SimItem) (v : Int),
      now ≤ tc → HypInv som now b0 m tc store →
      (q = [⟨m, tk, true⟩] ∨ q = [⟨mE, tokE, false⟩, ⟨m, tk, true⟩]) →
      estimateLoop opts som now per fuel tc store q = some v →
      ∃ T, now ≤ T ∧ simWaitVal opts som T b0 m tk ≤ 0 ∧ v = max 0 (T - now) := by
  intro fuel
  induction fuel with
  | zero =>
    intro tc store q v _ _ hq h
    rcases hq with hq | hq <;> subst hq <;> simp [estimateLoop] at h
  | succ n ih =>
    intro tc store q v htc hinv hq hrun
    have hite : ∀ (c : Prop) (inst : Decidable c), 0 ≤ (if c then opts.fallbackDelayMs else 0) := by
      intro c inst
      split_ifs
      · exact hfb
      · exact le_refl 0
    rcases hq with hq | hq
    · subst hq
      have hw := hypInv_wait opts som now tk b0 m tc store hinv htc
      by_cases hple : (computeWaitSim opts som now tc store m tk).1 ≤ 0
      · have hscan := scanSim_one_pos opts som now tc store ⟨m, tk, true⟩ hple
        simp only [estimateLoop, hscan] at hrun
        simp only [List.getElem?_cons_zero, if_true, Option.some.injEq] at hrun
        exact ⟨tc, htc, by omega, hrun.symm⟩
      · have hscan := scanSim_one_neg opts som now tc store ⟨m, tk, true⟩ hple
        simp only [estimateLoop, hscan] at hrun
        have hpos : 0 < simWaitVal opts som tc b0 m tk := by omega
        obtain ⟨a, as, hact⟩ := simWaitVal_pos_active opts som tc tk b0 m hpos
        have hinv' := hypInv_after_self_check opts som now tk b0 m tc store hinv htc a as hact
        have hsleep1 := sleepMs_pos (some (computeWaitSim opts som now tc store m tk).1)
        exact ih _ _ _ v (by omega)
          (hypInv_mono som now b0 m tc _ _ hinv' (by omega)) (Or.inl rfl) hrun
    · subst hq
      by_cases hE : (computeWaitSim opts som now tc store mE tokE).1 ≤ 0
      · have hscan := scanSim_two_first opts som now tc store ⟨mE, tokE, false⟩ ⟨m, tk, true⟩ hE
        simp only [estimateLoop, hscan] at hrun
        simp only [List.getElem?_cons_zero, Bool.false_eq_true, if_false] at hrun
        have hsb : storeBucket som now
            (recordUsageSimStore som now tc tokE mE
              (computeWaitSim opts som now tc store mE tokE).2) m =
            storeBucket som now store m := by
          rw [storeBucket_after_other_record som now tc tokE _ mE m hkey,
            storeBucket_after_other_check opts som now tc tokE store mE m hkey]
        refine ih _ _ _ v ?_ ?_ (Or.inl rfl) hrun
        · have h1 : (0 : Int) ≤ 0 ⊔ per := le_max_left 0 per
          have h2 := hite (opts.fallbackDelayMs ≠ 0 ∧
            ¬[(⟨m, tk, true⟩ : SimItem)] = []) (by infer_instance)
          omega
        · refine hypInv_mono som now b0 m tc _ _
            (hypInv_store_eq som now b0 m tc store _ hsb hinv) ?_
          have h1 : (0 : Int) ≤ 0 ⊔ per := le_max_left 0 per
          have h2 := hite (opts.fallbackDelayMs ≠ 0 ∧
            ¬[(⟨m, tk, true⟩ : SimItem)] = []) (by infer_instance)
          omega
      · have hinvE : HypInv som now b0 m tc
            (computeWaitSim opts som now tc store mE tokE).2 :=
          hypInv_store_eq som now b0 m tc store _
            (storeBucket_after_other_check opts som now tc tokE store mE m hkey) hinv
        have hw2 := hypInv_wait opts som now tk b0 m tc
          (computeWaitSim opts som now tc store mE tokE).2 hinvE htc
        by_cases hH : (computeWaitSim opts som now tc
            (computeWaitSim opts som now tc store mE tokE).2 m tk).1 ≤ 0
        · have hscan := scanSim_two_second opts som now tc store
            ⟨mE, tokE, false⟩ ⟨m, tk, true⟩ hE hH
          simp only [estimateLoop, hscan] at hrun
          simp only [List.getElem?_cons_succ, List.getElem?_cons_zero, if_true,
            Option.some.injEq] at hrun
          exact ⟨tc, htc, by omega, hrun.symm⟩
        · have hscan := scanSim_two_none opts som now tc store
            ⟨mE, tokE, false⟩ ⟨m, tk, true⟩ hE hH
          simp only [estimateLoop, hscan] at hrun
          have hpos : 0 < simWaitVal opts som tc b0 m tk := by omega
          obtain ⟨a, as, hact⟩ := simWaitVal_pos_active opts som tc tk b0 m hpos
          have hinv' := hypInv_after_self_check opts som now tk b0 m tc
            (computeWaitSim opts som now tc store mE tokE).2 hinvE htc a as hact
          have hsleep1 := sleepMs_pos (some
            (min (computeWaitSim opts som now tc store mE tokE).1
              (computeWaitSim opts som now tc
                (computeWaitSim opts som now tc store mE tokE).2 m tk).1))
          exact ih _ _ _ v (by omega)
            (hypInv_mono som now b0 m tc _ _ hinv' (by omega)) (Or.inr rfl) hrun

/-- C9 (amended).  The estimator is not monotone in queue length in general
(see the counterexample), but with an *empty* pending queue it is: appending
one pending item whose bucket key differs from the hypothetical request's
model key never decreases the estimate, for any fuels under which both
simulations terminate (a non-negative fallback delay is assumed; the appended
item never touches the hypothetical's bucket, and the hypothetical is only
dispatched at a cursor instant at which its own pure wait has reached 0 —
an instant the empty-queue simulation reaches no later). -/
theorem estimator_monotone_empty_queue (opts : QueuerOptions)
    (som now tokensNeeded : Int) (execEwmaMs : Option Int) (entries : Store)
    (m : Option String) (extra : QueueItem) (fuelA fuelB : Nat) (vA vB : Int)
    (hkey : jsKey extra.modelName ≠ jsKey m)
    (hfb : 0 ≤ opts.fallbackDelayMs)
    (hA : estimateWaitMs opts som now execEwmaMs entries [] m tokensNeeded fuelA = some vA)
    (hB : estimateWaitMs opts som now execEwmaMs entries [extra] m tokensNeeded fuelB =
      some vB) :
    vA ≤ vB := by
  unfold estimateWaitMs at hA hB
  by_cases hfast : limitsEmpty (getActiveLimits opts m) = true ∧ opts.fallbackDelayMs = 0
  · rw [if_pos hfast] at hA hB
    simp only [Option.some.injEq] at hA hB
    omega
  · rw [if_neg hfast] at hA hB
    simp only [toSimQueue, List.map_nil, List.map_cons, List.nil_append,
      List.cons_append] at hA hB
    obtain ⟨T, hT1, hT2, hv⟩ := estimateLoopB_ex opts som now (execEwmaMs.getD 500)
      (max 0 tokensNeeded) (itemTokens extra) m extra.modelName
      (storeBucket som now entries m) hkey hfb fuelB now entries _ vB
      (le_refl now) (Or.inl rfl) (Or.inr rfl) hB
    have hvA := estimateLoopA_le opts som now (execEwmaMs.getD 500)
      (max 0 tokensNeeded) m (storeBucket som now entries m) T hT2 fuelA now entries vA
      (le_refl now) hT1 (Or.inl rfl) hA
    have hge : T - now ≤ vB := by
      rw [hv]
      exact le_max_right 0 (T - now)
    omega

/-- Witness for the amended C9: an RPS-1 model "h" blocked for 900 ms; the
empty-queue estimate is 900, and appending an item for model "e" leaves it at
900 (not smaller). -/
theorem estimator_monotone_empty_queue_witness :
    estimateWaitMs ⟨[⟨.RPS, 1⟩], [], 0⟩ 1000000 200 (some 300)
        [("h", ⟨[100], [], [], 0, 1000000, 0, 1000000, 0, 0⟩)] [] (some "h") 0 10 =
      some 900 ∧
      estimateWaitMs ⟨[⟨.RPS, 1⟩], [], 0⟩ 1000000 200 (some 300)
        [("h", ⟨[100], [], [], 0, 1000000, 0, 1000000, 0, 0⟩)]
        [⟨9, some 0, some "e"⟩] (some "h") 0 10 = some 900 ∧
      (900 : Int) ≤ 900 :=
  ⟨by decide, by decide,
    estimator_monotone_empty_queue ⟨[⟨.RPS, 1⟩], [], 0⟩ 1000000 200 0 (some 300)
      [("h", ⟨[100], [], [], 0, 1000000, 0, 1000000, 0, 0⟩)] (some "h")
      ⟨9, some 0, some "e"⟩ 10 10 900 900 (by decide) (by decide) (by decide) (by decide)⟩

end AIQueuer
